import Mathlib

/-!
Shallow embedding of the z.ai2api_deno protocol-translation gateway.

Source files embedded here:
  * `src/app/utils/sse_parser.ts`  — the event-stream lexer (`SSEParser.iterEvents`).
  * `src/unnamed/part_000`         — the streaming translator (`StreamResponseHandler`)
    and the aggregate translator (`NonStreamResponseHandler`).

Strings are modelled as `List Char` (named `Str`), so that the chunk-splitting,
trimming and substring scanning done by the source can be reasoned about by
structural induction.  JavaScript's `JSON.parse` is modelled by a fuel-based
recursive-descent parser (`jsonParse`); `TextDecoder` with `stream:true` is
chunk-boundary transparent, so byte chunks are modelled as already-decoded
character chunks.
-/

/-- Character strings modelled as lists of characters. -/
abbrev Str := List Char

/-- Shorthand turning a Lean string literal into the `Str` model. -/
def S (s : String) : Str := s.toList

/-- Whitespace as used by JavaScript's `String.prototype.trim`
(the characters relevant to this code base). -/
def isWsTrim (c : Char) : Bool :=
  c = ' ' || c = '\t' || c = '\n' || c = '\r' || c = '\x0b' || c = '\x0c'

/-- `value.trimStart()`-like helper. -/
def trimLeft (s : Str) : Str := s.dropWhile isWsTrim

/-- JavaScript `s.trim()`: strip leading and trailing whitespace. -/
def listTrim (s : Str) : Str := ((s.dropWhile isWsTrim).reverse.dropWhile isWsTrim).reverse

/-- `s.startsWith(pat)` (JavaScript): `startsWithS pat s`. -/
def startsWithS : Str → Str → Bool
  | [], _ => true
  | _, [] => false
  | p :: ps, c :: cs => p = c && startsWithS ps cs

/-- `s.endsWith(pat)` (JavaScript). -/
def endsWithS (pat s : Str) : Bool := startsWithS pat.reverse s.reverse

/-- Index of the first occurrence of `pat` as a contiguous substring of `s`. -/
def findSubIdx (pat : Str) : Str → Option Nat
  | [] => if startsWithS pat [] then some 0 else none
  | c :: cs =>
    if startsWithS pat (c :: cs) then some 0
    else (findSubIdx pat cs).map (· + 1)

/-- `s.split(sep)[0]` (JavaScript): the text before the first occurrence of
`sep`, or all of `s` when `sep` does not occur. -/
def splitFirstSep (sep s : Str) : Str :=
  match findSubIdx sep s with
  | some i => s.take i
  | none => s

/-- Fuel-driven worker for `splitAllSep`. -/
def splitAllSepF (sep : Str) : Nat → Str → List Str
  | 0, s => [s]
  | fuel + 1, s =>
    match findSubIdx sep s with
    | none => [s]
    | some i => s.take i :: splitAllSepF sep fuel (s.drop (i + sep.length))

/-- JavaScript `s.split(sep)` for a non-empty separator. -/
def splitAllSep (sep s : Str) : List Str := splitAllSepF sep (s.length + 1) s

/-- JavaScript `parseInt(s, 10)`: skip leading whitespace, optional sign,
then leading decimal digits; `none` models `NaN` (no digits found).
`parseInt` never throws, which is what makes the lexer's catch unreachable. -/
def jsParseInt (s : Str) : Option Int :=
  let t := s.dropWhile isWsTrim
  let (sign, t2) : Int × Str :=
    match t with
    | '-' :: r => (-1, r)
    | '+' :: r => (1, r)
    | _ => (1, t)
  let ds := t2.takeWhile (·.isDigit)
  if ds = [] then none
  else some (sign * (ds.foldl (fun acc c => acc * 10 + (c.toNat - 48)) 0 : Nat))

/-!  ### Splitting a rolling buffer on line breaks

`SSEParser.iterEvents` does `buffer.split('\n')` and keeps the last piece as the
new buffer.  `splitNl` models JavaScript `split('\n')`: it always returns at
least one piece, and the pieces contain no `'\n'`. -/

/-- JavaScript `s.split('\n')`. -/
def splitNl : Str → List Str
  | [] => [[]]
  | c :: cs =>
    if c = '\n' then [] :: splitNl cs
    else
      match splitNl cs with
      | [] => [[c]]
      | l :: ls => (c :: l) :: ls

/-- Prepend a prefix onto the first piece of a split. -/
def prependFirst (p : Str) : List Str → List Str
  | [] => [p]
  | h :: t => (p ++ h) :: t

/-- Last element of a list of pieces, with a default: models `lines.pop() || ""`. -/
def lastD (d : Str) : List Str → Str
  | [] => d
  | [x] => x
  | _ :: y :: t => lastD d (y :: t)

/-- All pieces but the last: what the lexer treats as complete lines. -/
def initSegs : List Str → List Str
  | [] => []
  | [_] => []
  | x :: y :: t => x :: initSegs (y :: t)

theorem splitNl_ne_nil (l : Str) : splitNl l ≠ [] := by
  cases l with
  | nil => simp [splitNl]
  | cons c cs =>
    simp only [splitNl]
    split
    · simp
    · split <;> simp

theorem prependFirst_nil_of_ne (l : List Str) (h : l ≠ []) : prependFirst [] l = l := by
  cases l with
  | nil => exact absurd rfl h
  | cons a t => simp [prependFirst]

theorem splitNl_append (a b : Str) :
    splitNl (a ++ b) =
      initSegs (splitNl a) ++ prependFirst (lastD [] (splitNl a)) (splitNl b) := by
  induction a with
  | nil =>
    rw [List.nil_append]
    rw [show splitNl ([] : Str) = [[]] from rfl]
    rw [show initSegs [([] : Str)] = [] from rfl, show lastD [] [([] : Str)] = [] from rfl]
    rw [List.nil_append, prependFirst_nil_of_ne _ (splitNl_ne_nil b)]
  | cons c cs ih =>
    rw [List.cons_append]
    by_cases hc : c = '\n'
    · subst hc
      rw [show splitNl ('\n' :: (cs ++ b)) = [] :: splitNl (cs ++ b) from by simp [splitNl]]
      rw [show splitNl ('\n' :: cs) = [] :: splitNl cs from by simp [splitNl]]
      rw [ih]
      cases hcs : splitNl cs with
      | nil => exact absurd hcs (splitNl_ne_nil cs)
      | cons x xs =>
        rw [show initSegs ([] :: x :: xs) = [] :: initSegs (x :: xs) from rfl]
        rw [show lastD [] ([] :: x :: xs) = lastD [] (x :: xs) from rfl]
        rfl
    · have hl : splitNl (c :: (cs ++ b)) =
          match splitNl (cs ++ b) with
          | [] => [[c]]
          | l :: ls => (c :: l) :: ls := by
        simp [splitNl, hc]
      have hr : splitNl (c :: cs) =
          match splitNl cs with
          | [] => [[c]]
          | l :: ls => (c :: l) :: ls := by
        simp [splitNl, hc]
      cases hcs : splitNl cs with
      | nil => exact absurd hcs (splitNl_ne_nil cs)
      | cons x xs =>
        rw [hcs] at hr ih
        cases xs with
        | nil =>
          rw [show initSegs [x] = [] from rfl, show lastD [] [x] = x from rfl,
            List.nil_append] at ih
          cases hb : splitNl b with
          | nil => exact absurd hb (splitNl_ne_nil b)
          | cons y ys =>
            rw [hb] at ih
            rw [hl, ih, hr]
            rw [show prependFirst x (y :: ys) = (x ++ y) :: ys from rfl]
            rw [show initSegs [c :: x] = [] from rfl, show lastD [] [c :: x] = c :: x from rfl]
            simp [prependFirst]
        | cons y ys =>
          rw [hl, ih, hr]
          rw [show initSegs (x :: y :: ys) = x :: initSegs (y :: ys) from rfl] at *
          rw [show lastD [] (x :: y :: ys) = lastD [] (y :: ys) from rfl]
          rw [show initSegs ((c :: x) :: y :: ys) = (c :: x) :: initSegs (y :: ys) from rfl]
          rw [show lastD [] ((c :: x) :: y :: ys) = lastD [] (y :: ys) from rfl]
          rfl

/-!  ### A model of JavaScript `JSON.parse`

The source relies on the `JSON.parse` builtin for: flagging `data:` lines as
JSON or not, decoding tool-call block contents, and validating/unescaping
`arguments` strings.  `Json` models a parsed value; `jsonParse` is a
fuel-driven strict recursive-descent parser of the JSON grammar (whitespace
`space/tab/nl/cr`, no trailing input).  Numbers keep their lexeme: none of the
embedded code computes with numeric values.  `\uXXXX` escapes map through
`Char.ofNat`; surrogate-pair recombination is not modelled (no embedded code
path depends on it). -/

inductive Json where
  | null
  | bool (b : Bool)
  | num (lexeme : Str)
  | str (s : Str)
  | arr (elems : List Json)
  | obj (fields : List (Str × Json))

/-- The `{` character, written via its code point. -/
def lbrace : Char := Char.ofNat 123

/-- The `}` character, written via its code point. -/
def rbrace : Char := Char.ofNat 125

mutual

/-- Structural Boolean equality on `Json` (JavaScript `===` on the values the
embedded code compares is primitive equality; structural equality agrees with
it on primitives, which is the only case the source exercises). -/
def beqJson : Json → Json → Bool
  | .null, .null => true
  | .bool a, .bool b => a == b
  | .num a, .num b => a == b
  | .str a, .str b => a == b
  | .arr a, .arr b => beqJsonList a b
  | .obj a, .obj b => beqJsonFields a b
  | _, _ => false

/-- Pointwise equality of `Json` lists. -/
def beqJsonList : List Json → List Json → Bool
  | [], [] => true
  | x :: xs, y :: ys => beqJson x y && beqJsonList xs ys
  | _, _ => false

/-- Pointwise equality of `Json` field lists. -/
def beqJsonFields : List (Str × Json) → List (Str × Json) → Bool
  | [], [] => true
  | (k1, v1) :: xs, (k2, v2) :: ys => k1 == k2 && beqJson v1 v2 && beqJsonFields xs ys
  | _, _ => false

end

instance : BEq Json := ⟨beqJson⟩

/-- JSON grammar whitespace. -/
def isWsJson (c : Char) : Bool := c = ' ' || c = '\t' || c = '\n' || c = '\r'

/-- Skip JSON whitespace. -/
def skipWs (s : Str) : Str := s.dropWhile isWsJson

/-- Hexadecimal digit value. -/
def hexVal (c : Char) : Option Nat :=
  if c.isDigit then some (c.toNat - 48)
  else if 'a' ≤ c && c ≤ 'f' then some (c.toNat - 87)
  else if 'A' ≤ c && c ≤ 'F' then some (c.toNat - 55)
  else none

/-- Parse the body of a JSON string literal (the opening quote already
consumed), returning the unescaped content and the rest of the input. -/
def parseStrBody : Str → Option (Str × Str)
  | [] => none
  | c :: rest =>
    if c = '"' then some ([], rest)
    else if c = '\\' then
      match rest with
      | '"' :: r => (parseStrBody r).map (fun p => ('"' :: p.1, p.2))
      | '\\' :: r => (parseStrBody r).map (fun p => ('\\' :: p.1, p.2))
      | '/' :: r => (parseStrBody r).map (fun p => ('/' :: p.1, p.2))
      | 'b' :: r => (parseStrBody r).map (fun p => ('\x08' :: p.1, p.2))
      | 'f' :: r => (parseStrBody r).map (fun p => ('\x0c' :: p.1, p.2))
      | 'n' :: r => (parseStrBody r).map (fun p => ('\n' :: p.1, p.2))
      | 'r' :: r => (parseStrBody r).map (fun p => ('\r' :: p.1, p.2))
      | 't' :: r => (parseStrBody r).map (fun p => ('\t' :: p.1, p.2))
      | 'u' :: h1 :: h2 :: h3 :: h4 :: r =>
        match hexVal h1, hexVal h2, hexVal h3, hexVal h4 with
        | some a, some b, some c2, some d =>
          (parseStrBody r).map (fun p => (Char.ofNat (((a * 16 + b) * 16 + c2) * 16 + d) :: p.1, p.2))
        | _, _, _, _ => none
      | _ => none
    else if c.toNat < 32 then none
    else (parseStrBody rest).map (fun p => (c :: p.1, p.2))

/-- Parse a JSON number, returning its lexeme and the rest of the input. -/
def parseNumLex (s : Str) : Option (Str × Str) :=
  let signSplit : Str × Str := match s with | '-' :: r => (['-'], r) | _ => ([], s)
  let sgn := signSplit.1
  let s1 := signSplit.2
  let ipart : Option (Str × Str) :=
    match s1 with
    | '0' :: r => some (['0'], r)
    | c :: r => if c.isDigit then some (c :: r.takeWhile (·.isDigit), r.dropWhile (·.isDigit)) else none
    | [] => none
  match ipart with
  | none => none
  | some (ip, s2) =>
    let fres : Option (Str × Str) :=
      match s2 with
      | '.' :: r =>
        let ds := r.takeWhile (·.isDigit)
        if ds = [] then none else some ('.' :: ds, r.dropWhile (·.isDigit))
      | _ => some ([], s2)
    match fres with
    | none => none
    | some (fp, s3) =>
      let eres : Option (Str × Str) :=
        match s3 with
        | e :: r =>
          if e = 'e' || e = 'E' then
            let esr : Str × Str :=
              match r with
              | c :: rr => if c = '+' || c = '-' then ([c], rr) else ([], c :: rr)
              | [] => ([], [])
            let ds := esr.2.takeWhile (·.isDigit)
            if ds = [] then none
            else some (e :: esr.1 ++ ds, esr.2.dropWhile (·.isDigit))
          else some ([], s3)
        | [] => some ([], s3)
      match eres with
      | none => none
      | some (ep, s4) => some (sgn ++ ip ++ fp ++ ep, s4)

mutual

/-- Parse one JSON value (fuel-driven; fuel bounds the recursion depth and is
chosen generously by `jsonParse`). -/
def parseVal : Nat → Str → Option (Json × Str)
  | 0, _ => none
  | fuel + 1, s =>
    match skipWs s with
    | [] => none
    | c :: r =>
      if c = '"' then (parseStrBody r).map (fun p => (Json.str p.1, p.2))
      else if c = 'n' then
        match r with
        | 'u' :: 'l' :: 'l' :: r2 => some (.null, r2)
        | _ => none
      else if c = 't' then
        match r with
        | 'r' :: 'u' :: 'e' :: r2 => some (.bool true, r2)
        | _ => none
      else if c = 'f' then
        match r with
        | 'a' :: 'l' :: 's' :: 'e' :: r2 => some (.bool false, r2)
        | _ => none
      else if c = '[' then
        match skipWs r with
        | ']' :: r2 => some (.arr [], r2)
        | _ => (parseElems fuel r).map (fun p => (Json.arr p.1, p.2))
      else if c = lbrace then
        match skipWs r with
        | d :: r2 => if d = rbrace then some (.obj [], r2)
                     else (parseFields fuel r).map (fun p => (Json.obj p.1, p.2))
        | [] => none
      else (parseNumLex (c :: r)).map (fun p => (Json.num p.1, p.2))

/-- Parse the elements of a non-empty JSON array up to `]`. -/
def parseElems : Nat → Str → Option (List Json × Str)
  | 0, _ => none
  | fuel + 1, s =>
    match parseVal fuel s with
    | none => none
    | some (v, r) =>
      match skipWs r with
      | ',' :: r2 => (parseElems fuel r2).map (fun p => (v :: p.1, p.2))
      | ']' :: r2 => some ([v], r2)
      | _ => none

/-- Parse the members of a non-empty JSON object up to the closing brace. -/
def parseFields : Nat → Str → Option (List (Str × Json) × Str)
  | 0, _ => none
  | fuel + 1, s =>
    match skipWs s with
    | c :: r =>
      if c = '"' then
        match parseStrBody r with
        | none => none
        | some (k, r2) =>
          match skipWs r2 with
          | ':' :: r3 =>
            match parseVal fuel r3 with
            | none => none
            | some (v, r4) =>
              match skipWs r4 with
              | ',' :: r5 => (parseFields fuel r5).map (fun p => ((k, v) :: p.1, p.2))
              | d :: r5 => if d = rbrace then some ([(k, v)], r5) else none
              | [] => none
          | _ => none
      else none
    | [] => none

end

/-- Model of `JSON.parse(s)`: `none` models a thrown `SyntaxError`; trailing
non-whitespace input is rejected. -/
def jsonParse (s : Str) : Option Json :=
  (parseVal (2 * s.length + 4) s).bind
    (fun q => if skipWs q.2 = [] then some q.1 else none)

/-- Is a number lexeme the number zero (the falsy numeric values). -/
def numIsZero (lexeme : Str) : Bool :=
  (lexeme.takeWhile (fun c => !(c == 'e') && !(c == 'E'))).all
    (fun c => c == '0' || c == '.' || c == '-')

/-- JavaScript truthiness of a parsed JSON value. -/
def jsTruthy : Json → Bool
  | .null => false
  | .bool b => b
  | .num l => !(numIsZero l)
  | .str s => !s.isEmpty
  | .arr _ => true
  | .obj _ => true

/-- JavaScript property access `j[k]` on a parsed JSON value: only objects
have properties; with duplicate keys `JSON.parse` keeps the last one. -/
def jsProp (j : Json) (k : Str) : Option Json :=
  match j with
  | .obj fs => fs.foldl (fun acc p => if p.1 = k then some p.2 else acc) none
  | _ => none

/-- Keep a property value only when truthy (the `a || b` chains). -/
def truthyOpt : Option Json → Option Json
  | some v => if jsTruthy v then some v else none
  | none => none

/-!  ### The event-stream lexer (`SSEParser.iterEvents`)

Per chunk: append to the rolling buffer, split on `'\n'`, keep the last piece
as the new buffer, and turn every complete line into at most one record.
At stream end the trailing partial line is discarded.  `TextDecoder` with
`stream:true` makes byte-level chunk boundaries invisible, so chunks are
modelled as decoded character chunks. -/

inductive SSERecord where
  | data (json : Option Json) (raw : Str) (isJson : Bool)
  | event (v : Str)
  | id (v : Str)
  | retry (v : Option Int)

/-- `line.indexOf(":")` split: the text before and after the first colon. -/
def splitAtFirstColon : Str → Option (Str × Str)
  | [] => none
  | c :: t =>
    if c = ':' then some ([], t)
    else (splitAtFirstColon t).map (fun p => (c :: p.1, p.2))

/-- Dispatch on the trimmed field name with the trimmed value
(`field === "data" | "event" | "id" | "retry"`); unknown fields are dropped.
For `data`: empty value dropped, then `JSON.parse` decides the `is_json` flag.
For `retry`: `parseInt` never throws, so the catch in the source is dead code
and a record is emitted even when the value has no digits (`retry` = NaN,
modelled as `none`). -/
def mkFieldRecord (field value : Str) : Option SSERecord :=
  if field = S "data" then
    if listTrim value = [] then none
    else
      match jsonParse value with
      | some j => some (.data (some j) value true)
      | none => some (.data none value false)
  else if field = S "event" then some (.event value)
  else if field = S "id" then some (.id value)
  else if field = S "retry" then some (.retry (jsParseInt value))
  else none

/-- One complete line of the stream to at most one record: skip blank lines,
skip comment lines starting `:`, skip lines with no colon, otherwise split at
the first colon and dispatch; both field and value go through `.trim()`. -/
def recordOfLine (line : Str) : Option SSERecord :=
  if listTrim line = [] then none
  else if startsWithS (S ":") line then none
  else
    match splitAtFirstColon line with
    | none => none
    | some p => mkFieldRecord (listTrim p.1) (listTrim p.2)

/-- The chunk loop of `iterEvents`: `buffer += chunk; lines = buffer.split('\n');
buffer = lines.pop() || ""`, then each complete line becomes at most one
record; at stream end the remaining buffer is discarded. -/
def lexLoop : Str → List Str → List SSERecord
  | _, [] => []
  | buf, c :: cs =>
    let pieces := splitNl (buf ++ c)
    (initSegs pieces).filterMap recordOfLine ++ lexLoop (lastD [] pieces) cs

/-- The records `SSEParser.iterEvents` emits for a chunked stream. -/
def lexChunks (chunks : List Str) : List SSERecord := lexLoop [] chunks

theorem mem_splitNl_no_nl : ∀ (l : Str) (x : Str), x ∈ splitNl l → '\n' ∉ x := by
  intro l
  induction l with
  | nil =>
    intro x hx
    rw [show splitNl [] = [[]] from rfl] at hx
    simp at hx
    simp [hx]
  | cons c cs ih =>
    intro x hx
    by_cases hc : c = '\n'
    · subst hc
      rw [show splitNl ('\n' :: cs) = [] :: splitNl cs from by simp [splitNl]] at hx
      rcases List.mem_cons.mp hx with h | h
      · simp [h]
      · exact ih x h
    · have hx2 : x ∈ match splitNl cs with
          | [] => [[c]]
          | l :: ls => (c :: l) :: ls := by
        rw [show (match splitNl cs with
            | [] => [[c]]
            | l :: ls => (c :: l) :: ls) = splitNl (c :: cs) from by simp [splitNl, hc]]
        exact hx
      cases hcs : splitNl cs with
      | nil => exact absurd hcs (splitNl_ne_nil cs)
      | cons l ls =>
        rw [hcs] at hx2
        rcases List.mem_cons.mp hx2 with h | h
        · subst h
          intro hmem
          rcases List.mem_cons.mp hmem with h2 | h2
          · exact hc h2.symm
          · exact ih l (by rw [hcs]; exact List.mem_cons_self l ls) h2
        · exact ih x (by rw [hcs]; exact List.mem_cons_of_mem l h)

theorem splitNl_of_no_nl (buf : Str) (h : '\n' ∉ buf) : splitNl buf = [buf] := by
  induction buf with
  | nil => rfl
  | cons c cs ih =>
    have hc : ¬(c = '\n') := fun hcc => h (by rw [hcc]; exact List.mem_cons_self _ _)
    have hcs : '\n' ∉ cs := fun hm => h (List.mem_cons_of_mem c hm)
    simp [splitNl, hc, ih hcs]

theorem lastD_mem : ∀ (l : List Str), l ≠ [] → lastD [] l ∈ l := by
  intro l
  induction l with
  | nil => intro h; exact absurd rfl h
  | cons x xs ih =>
    intro _
    cases xs with
    | nil => exact List.mem_cons_self _ _
    | cons y ys =>
      rw [show lastD [] (x :: y :: ys) = lastD [] (y :: ys) from rfl]
      exact List.mem_cons_of_mem x (ih (by simp))

theorem initSegs_append (A B : List Str) (h : B ≠ []) :
    initSegs (A ++ B) = A ++ initSegs B := by
  induction A with
  | nil => rfl
  | cons a A ih =>
    cases hAB : A ++ B with
    | nil =>
      rcases List.append_eq_nil.mp hAB with ⟨_, h2⟩
      exact absurd h2 h
    | cons z zs =>
      rw [List.cons_append, hAB,
        show initSegs (a :: z :: zs) = a :: initSegs (z :: zs) from rfl, ← hAB, ih]
      rfl

theorem prependFirst_ne_nil (p : Str) (l : List Str) : prependFirst p l ≠ [] := by
  cases l <;> simp [prependFirst]

theorem lexLoop_eq (cs : List Str) : ∀ (buf : Str), '\n' ∉ buf →
    lexLoop buf cs =
      (initSegs (splitNl (buf ++ cs.flatten))).filterMap recordOfLine := by
  induction cs with
  | nil =>
    intro buf h
    rw [show lexLoop buf [] = [] from rfl, List.flatten_nil, List.append_nil,
      splitNl_of_no_nl buf h]
    rfl
  | cons c cs ih =>
    intro buf h
    have hnb : '\n' ∉ lastD [] (splitNl (buf ++ c)) :=
      mem_splitNl_no_nl _ _ (lastD_mem _ (splitNl_ne_nil _))
    rw [show lexLoop buf (c :: cs) =
        (initSegs (splitNl (buf ++ c))).filterMap recordOfLine ++
          lexLoop (lastD [] (splitNl (buf ++ c))) cs from rfl]
    rw [ih _ hnb]
    rw [List.flatten_cons, ← List.append_assoc]
    rw [splitNl_append (buf ++ c) cs.flatten]
    rw [initSegs_append _ _ (prependFirst_ne_nil _ _)]
    rw [List.filterMap_append]
    rw [splitNl_append (lastD [] (splitNl (buf ++ c))) cs.flatten,
      splitNl_of_no_nl _ hnb,
      show initSegs [lastD [] (splitNl (buf ++ c))] = [] from rfl,
      show lastD [] [lastD [] (splitNl (buf ++ c))] = lastD [] (splitNl (buf ++ c)) from rfl,
      List.nil_append]

/-- Claim C2: for every character stream and every partition of it into
chunks, the lexer emits exactly the records of the single-chunk run — a line
split across chunk boundaries is never treated as complete, and the
unterminated trailing partial line at stream end is discarded (both runs
equal the records of the complete lines of the concatenation). -/
theorem c2_rechunking_invariant (chunks : List Str) :
    lexChunks chunks = lexChunks [chunks.flatten] := by
  rw [show lexChunks chunks = lexLoop [] chunks from rfl,
    show lexChunks [chunks.flatten] = lexLoop [] [chunks.flatten] from rfl]
  rw [lexLoop_eq chunks [] (by simp), lexLoop_eq [chunks.flatten] [] (by simp)]
  simp

theorem listTrim_eq_nil_all (l : Str) (h : listTrim l = []) : ∀ x ∈ l, isWsTrim x = true := by
  unfold listTrim at h
  rw [List.reverse_eq_nil_iff, List.dropWhile_eq_nil_iff] at h
  intro x hx
  rcases List.mem_append.mp
      (by rw [List.takeWhile_append_dropWhile (p := isWsTrim) (l := l)]; exact hx) with h1 | h1
  · exact List.mem_takeWhile_imp h1
  · exact h x (List.mem_reverse.mpr h1)

theorem splitColon_append (pre post : Str) (h : ':' ∉ pre) :
    splitAtFirstColon (pre ++ ':' :: post) = some (pre, post) := by
  induction pre with
  | nil => simp [splitAtFirstColon]
  | cons p ps ih =>
    have hp : ¬(p = ':') := fun he => h (by rw [he]; exact List.mem_cons_self _ _)
    have hps : ':' ∉ ps := fun hm => h (List.mem_cons_of_mem _ hm)
    simp [splitAtFirstColon, hp, ih hps]

theorem mkFieldRecord_nil (v : Str) : mkFieldRecord [] v = none := by
  unfold mkFieldRecord
  rw [if_neg (by decide : ¬(([] : Str) = S "data")),
    if_neg (by decide : ¬(([] : Str) = S "event")),
    if_neg (by decide : ¬(([] : Str) = S "id")),
    if_neg (by decide : ¬(([] : Str) = S "retry"))]

/-- Claim C9 (amended): for every complete line `pre ++ ":" ++ post` whose part
before the first colon is `pre`, the lexer splits at that first colon and the
emitted record is determined by the trimmed field and the trimmed value — the
value is trimmed on BOTH sides (leading and trailing whitespace removed), not
left-trimmed only. -/
theorem c9_value_trimmed_both_sides (pre post : Str) (h : ':' ∉ pre) :
    recordOfLine (pre ++ ':' :: post) = mkFieldRecord (listTrim pre) (listTrim post) := by
  have hblank : ¬(listTrim (pre ++ ':' :: post) = []) := by
    intro hnil
    have hws := listTrim_eq_nil_all _ hnil ':' (by simp)
    simp [isWsTrim] at hws
  cases pre with
  | nil =>
    unfold recordOfLine
    rw [if_neg hblank]
    rw [if_pos (by rw [show S ":" = [':'] from rfl]; simp [startsWithS])]
    rw [show listTrim ([] : Str) = [] from rfl, mkFieldRecord_nil]
  | cons p ps =>
    have hp : ¬(':' = p) := by
      intro he
      exact h (by rw [← he]; exact List.mem_cons_self _ _)
    have hps : ':' ∉ ps := fun hm => h (List.mem_cons_of_mem _ hm)
    unfold recordOfLine
    rw [if_neg hblank]
    rw [if_neg (by rw [show S ":" = [':'] from rfl]; simp [startsWithS, hp])]
    rw [show (p :: ps) ++ ':' :: post = p :: (ps ++ ':' :: post) from rfl]
    rw [show splitAtFirstColon (p :: (ps ++ ':' :: post)) =
        if p = ':' then some ([], ps ++ ':' :: post)
        else (splitAtFirstColon (ps ++ ':' :: post)).map (fun q => (p :: q.1, q.2)) from rfl]
    rw [if_neg (fun he => hp he.symm), splitColon_append ps post hps]
    rfl

/-- Claim C9 (counterexample to the claim as stated): on the line
`event:hi ` the emitted record's value is `hi`, with the trailing space
removed, whereas the claim says trailing characters of the value are
preserved (`hi `). -/
theorem c9_counterexample :
    recordOfLine (S "event:hi ") = some (.event (S "hi")) ∧ S "hi" ≠ S "hi " := by
  exact ⟨rfl, by decide⟩

/-- Witness for `c9_value_trimmed_both_sides` at the concrete line
`event: hi ` (value trimmed on both sides to `hi`). -/
theorem c9_witness :
    recordOfLine (S "event" ++ ':' :: S " hi ") = some (.event (S "hi")) :=
  (c9_value_trimmed_both_sides (S "event") (S " hi ") (by decide)).trans rfl

/-- Claim C8: a `retry` line whose value has no digits is NOT dropped — the
catch in the source is dead code because `parseInt` never throws, so a record
with `retry` = NaN (modelled `none`) is emitted; a valid value parses
normally. -/
theorem c8_retry_nan_record :
    recordOfLine (S "retry: abc") = some (.retry none) ∧
    recordOfLine (S "retry: 100") = some (.retry (some 100)) :=
  ⟨rfl, rfl⟩

/-!  ### Fragment reassembly (`_processMultipleToolCalls` and helpers)

Tool-call fragments arrive as `(edit_index, edit_content)` pairs collected in
a `Map`; insertion preserves order and overwrites values in place.  Resolution
sorts the indices ascending, runs the glm-block accumulation loop, keeps only
the first accumulated block (`slice(0, 1)`), scans it with the block regex and
decodes each block's metadata. -/

/-- JavaScript `Map.set`: update in place when the key exists, else append. -/
def insertFragment (m : List (Int × Str)) (k : Int) (v : Str) : List (Int × Str) :=
  if m.any (fun p => p.1 = k) then m.map (fun p => if p.1 = k then (k, v) else p)
  else m ++ [(k, v)]

/-- JavaScript `Map.get`. -/
def lookupKey (k : Int) : List (Int × Str) → Option Str
  | [] => none
  | p :: t => if p.1 = k then some p.2 else lookupKey k t

/-- `Array.from(map.keys()).sort((a,b) => a-b)` then `map(i => map.get(i))`:
the fragment texts in ascending index order (any correct sort gives the same
result on the distinct keys of a `Map`; insertion sort is used here). -/
def sortedFragmentValues (m : List (Int × Str)) : List Str :=
  (List.insertionSort (fun a b => a ≤ b) (m.map Prod.fst)).map
    (fun k => (lookupKey k m).getD [])

/-- The opening tag matched by the block regex. -/
def glmOpenFull : Str := S "<glm_block view=\"\">"

/-- The opening-tag prefix tested by `startsWith` and by the removal regex. -/
def glmOpenShort : Str := S "<glm_block"

/-- The closing tag. -/
def glmClose : Str := S "</glm_block>"

/-- The argument/result splice marker `'", "result'`. -/
def argResultMarker : Str := S "\", \"result"

/-- One step of the accumulation loop over the sorted fragment texts. -/
def accumStep (acc : List Str × Str) (content0 : Str) : List Str × Str :=
  let c := listTrim content0
  if startsWithS glmOpenShort c then
    (if acc.2 ≠ [] then acc.1 ++ [acc.2] else acc.1, c)
  else if acc.2 ≠ [] ∧ endsWithS glmClose c then
    (acc.1, splitFirstSep argResultMarker acc.2 ++ c)
  else acc

/-- The accumulation loop: open-tag fragments start a new accumulation,
close-tag fragments splice onto the open one after truncating it at the
argument/result marker; a trailing open accumulation is flushed. -/
def accumulate (cs : List Str) : List Str :=
  let r := cs.foldl accumStep ([], [])
  if r.2 ≠ [] then r.1 ++ [r.2] else r.1

/-- `join("\n")`. -/
def joinNl : List Str → Str
  | [] => []
  | [x] => x
  | x :: y :: t => x ++ '\n' :: joinNl (y :: t)

/-- `tempArray.slice(0, 1).join("\n")`: only the first accumulated block. -/
def glmFullContent (m : List (Int × Str)) : Str :=
  joinNl ((accumulate (sortedFragmentValues m)).take 1)

/-- Fuel-driven worker for `extractBlocks`. -/
def extractBlocksF : Nat → Str → List Str
  | 0, _ => []
  | fuel + 1, s =>
    match findSubIdx glmOpenFull s with
    | none => []
    | some i =>
      let after := s.drop (i + glmOpenFull.length)
      match findSubIdx glmClose after with
      | none => []
      | some j => after.take j :: extractBlocksF fuel (after.drop (j + glmClose.length))

/-- The global lazy regex `<glm_block view="">([\s\S]*?)<\/glm_block>`: each
match captures from an opening tag to the nearest closing tag, scanning
resumes after the match. -/
def extractBlocks (s : Str) : List Str := extractBlocksF (s.length + 1) s

/-- Fuel-driven worker for `removeGlm`. -/
def removeGlmF : Nat → Str → Str
  | 0, s => s
  | fuel + 1, s =>
    match findSubIdx glmOpenShort s with
    | none => s
    | some i =>
      let after := s.drop (i + glmOpenShort.length)
      match findSubIdx glmClose after with
      | none => s
      | some j => s.take i ++ removeGlmF fuel (after.drop (j + glmClose.length))

/-- `replace(/<glm_block[\s\S]*?<\/glm_block>/g, '')`. -/
def removeGlm (s : Str) : Str := removeGlmF (s.length + 1) s

/-- `parsed.data?.metadata || parsed.metadata || {}`. -/
def metadataOf (parsed : Json) : Json :=
  match truthyOpt ((jsProp parsed (S "data")).bind (fun d => jsProp d (S "metadata"))) with
  | some m => m
  | none =>
    match truthyOpt (jsProp parsed (S "metadata")) with
    | some m => m
    | none => Json.obj []

/-- The argument-normalization block shared verbatim by the streaming handler
(lines 423-438) and the aggregate handler (lines 634-647), for a string-typed
`argsStr`.  A JSON document that begins with `"` can only parse to a string
(`jsonParse_quoted_is_str`), so the non-string arm of the quoted branch is
unreachable and collapses to the catch's `"{}"`. -/
def normalizeArgsStr (s : Str) : Str :=
  if s.length > 0 ∧ s ≠ S "\x7b\x7d" then
    if startsWithS (S "\"") s ∧ endsWithS (S "\"") s then
      match jsonParse s with
      | some (.str u) => if (jsonParse u).isSome then u else S "\x7b\x7d"
      | _ => S "\x7b\x7d"
    else if (jsonParse s).isSome then s else S "\x7b\x7d"
  else S "\x7b\x7d"

/-- `typeof argsStr === "string"` guard: a truthy non-string `arguments`
value skips the normalization block and keeps the default `"{}"`. -/
def normalizeArgsJ : Json → Str
  | .str s => normalizeArgsStr s
  | _ => S "\x7b\x7d"

/-- Decimal representation of a counter, for generated fallback ids. -/
def natStr (n : Nat) : Str := (Nat.repr n).toList

/-- A resolved tool invocation in the streaming path. -/
structure StreamTC where
  id : Json
  name : Json
  args : Str

/-- The block-decoding loop of `_processMultipleToolCalls`: parse each
extracted block, locate the metadata, extract id (default generated from the
current time and the running count), name (default `"unknown"`) and the
normalized arguments; malformed blocks are skipped. -/
def streamResolve (now : Nat) (m : List (Int × Str)) : List StreamTC :=
  (extractBlocks (glmFullContent m)).foldl (fun acc block =>
    match jsonParse block with
    | none => acc
    | some parsed =>
      let md := metadataOf parsed
      let tid := (truthyOpt (jsProp md (S "id"))).getD
        (.str (S "call_" ++ natStr now ++ '_' :: natStr (acc.length + 1)))
      let tname := (truthyOpt (jsProp md (S "name"))).getD (.str (S "unknown"))
      let targs := normalizeArgsJ ((truthyOpt (jsProp md (S "arguments"))).getD
        (.str (S "\x7b\x7d")))
      acc ++ [{ id := tid, name := tname, args := targs }]) []

theorem jsonParse_quoted_is_str (s : Str) (h : startsWithS (S "\"") s = true) (v : Json)
    (hv : jsonParse s = some v) : ∃ u, v = Json.str u := by
  obtain ⟨t, rfl⟩ : ∃ t, s = '"' :: t := by
    cases s with
    | nil => exact absurd h (by decide)
    | cons c cs =>
      rw [show S "\"" = ['"'] from rfl] at h
      simp only [startsWithS, Bool.and_true, decide_eq_true_eq] at h
      exact ⟨cs, by rw [h]⟩
  have hpv : parseVal (2 * ('"' :: t).length + 4) ('"' :: t) =
      (parseStrBody t).map (fun p => (Json.str p.1, p.2)) := by
    rw [show 2 * ('"' :: t).length + 4 = (2 * ('"' :: t).length + 3) + 1 from rfl]
    rfl
  unfold jsonParse at hv
  rw [hpv] at hv
  cases hb : parseStrBody t with
  | none => rw [hb] at hv; exact absurd hv (by simp)
  | some p =>
    rw [hb] at hv
    have h2 : (if skipWs p.2 = [] then some (Json.str p.1) else none) = some v := hv
    by_cases hr : skipWs p.2 = []
    · rw [if_pos hr] at h2
      exact ⟨p.1, (Option.some_inj.mp h2).symm⟩
    · rw [if_neg hr] at h2
      exact absurd h2 (by simp)

/-!  ### The streaming translator (`StreamResponseHandler.handle`)

The run state mirrors the handler's fields; the emitted strings are modelled
as structured chunks.  The input is the decoded payload sequence, possibly
ending in a mid-stream fault (`SEvent.fault`: the iteration throws and the
catch block runs).  The external collaborators `transformThinkingContent`,
`extractToolInvocations` and `removeToolJsonContent` (declared in
`utils/helpers.ts` / `utils/tools.ts`, outside the embedded sources) are
parameters `T`, `E`, `R`. -/

/-- A decoded upstream payload after schema validation / fallback extraction:
`topError` is `upstreamData.error`, `dataError` is `upstreamData.data.error`,
`inner` is `upstreamData.data.inner`, `choicesFinish` is the dynamically read
`data.choices?.[0]?.finish_reason`. -/
structure Payload where
  phase : Str
  delta_content : Str := []
  edit_content : Str := []
  edit_index : Option Int := none
  done : Bool := false
  usage : Option Json := none
  topError : Option Json := none
  dataError : Option Json := none
  inner : Option Json := none
  choicesFinish : Option Str := none

/-- Truthiness of an optional value (`undefined` is falsy). -/
def optTruthy : Option Json → Bool
  | some v => jsTruthy v
  | none => false

/-- `_hasError`: `Boolean(upstreamData.error || upstreamData.data.error ||
(upstreamData.data.inner && upstreamData.data.inner.error))`. -/
def hasErrorP (p : Payload) : Bool :=
  optTruthy p.topError || optTruthy p.dataError ||
    (match p.inner with
     | some i => jsTruthy i && optTruthy (jsProp i (S "error"))
     | none => false)

/-- `_getError`: the first present error, in the precedence top-level,
data-level, nested inner. -/
def getErrorP (p : Payload) : Option Json :=
  match truthyOpt p.topError with
  | some e => some e
  | none =>
    match truthyOpt p.dataError with
    | some e => some e
    | none => (truthyOpt p.inner).bind (fun i => jsProp i (S "error"))

/-- The result of the textual fallback extractor `extractToolInvocations`
(an external collaborator): `null` or a list of `{id, type?, function?}`. -/
structure ExtTC where
  id : Str
  ty : Option Str := none
  fn : Option (Str × Str) := none

/-- Mutable per-run state of `StreamResponseHandler`. -/
structure StState where
  hasTools : Bool
  bufferedContent : Str
  streamEnded : Bool
  toolUsage : Option Json
  toolCallFragments : List (Int × Str)
  toolCallFinishReceived : Bool

/-- The output chunks the handler yields (structure of the serialized
`data:` lines; ids and timestamps inside the JSON envelope carry no
information relevant to the claims and are omitted). -/
inductive OutChunk where
  | errorRaw (msg : Str)
  | role
  | content (s : Str)
  | reasoning (s : Str)
  | toolCallStart (i : Nat) (id : Json) (name : Json)
  | toolCallArgs (i : Nat) (id : Json) (args : Str)
  | fallbackToolCall (i : Nat) (tc : ExtTC)
  | finish (reason : Str) (usage : Option Json)
  | done

/-- `delta_content || edit_content`. -/
def contentOf (p : Payload) : Str :=
  if p.delta_content ≠ [] then p.delta_content else p.edit_content

/-- `_extractEditContent`: `editContent.split("</details>")`, then
`parts.length > 1 ? parts[1] : ""` — only the piece between the first and the
second marker. -/
def extractEditContent (editContent : Str) : Str :=
  match splitAllSep (S "</details>") editContent with
  | _ :: p1 :: _ => p1
  | _ => []

/-- `_processContent`.  `sentInitialAnswer` is received by value: the
assignment `sentInitialAnswer = true` inside the source function mutates only
the callee's copy (JavaScript passes primitives by value), so the change is
never visible to the caller; accordingly the model does not return it. -/
def processContent (T : Str → Str) (st : StState) (sentInitialAnswer : Bool) (p : Payload) :
    List OutChunk × StState :=
  let content := contentOf p
  if content = [] ∧ p.phase ≠ S "tool_call" then ([], st)
  else if p.phase = S "tool_call" then
    let st1 := { st with hasTools := true }
    if p.edit_content ≠ [] then
      ([], { st1 with toolCallFragments :=
        insertFragment st1.toolCallFragments (p.edit_index.getD 0) p.edit_content })
    else ([], st1)
  else
    let st1 := if p.phase = S "answer" ∧ p.usage.isSome then { st with toolUsage := p.usage } else st
    let st2 := if p.phase = S "answer" ∧ p.choicesFinish = some (S "stop")
               then { st1 with toolCallFinishReceived := true } else st1
    if p.phase = S "answer" ∧ p.choicesFinish.isSome then ([], st2)
    else if p.phase = S "other" ∧ p.usage.isSome then ([], { st2 with toolUsage := p.usage })
    else
      let processed := if p.phase = S "thinking" then T content else content
      if st2.hasTools then
        if p.phase = S "answer"
        then ([], { st2 with bufferedContent := st2.bufferedContent ++ processed })
        else ([], st2)
      else
        let initialOut :=
          if sentInitialAnswer = false ∧ p.edit_content ≠ [] ∧ p.phase = S "answer" then
            (if extractEditContent p.edit_content ≠ []
             then [OutChunk.content (extractEditContent p.edit_content)] else [])
          else []
        let deltaOut :=
          if p.delta_content ≠ [] then
            (if processed ≠ [] then
              (if p.phase = S "thinking" then [OutChunk.reasoning processed]
               else if p.phase = S "answer" then [OutChunk.content processed]
               else [])
             else [])
          else []
        (initialOut ++ deltaOut, st2)

/-- `_processMultipleToolCalls`: resolve fragments, emit per invocation a
start increment and an arguments increment, then the cleaned buffered text,
then the `tool_calls` finish chunk (with accumulated usage) and `[DONE]`,
and mark the stream ended.  Resolving no invocation emits nothing. -/
def processMultipleToolCalls (now : Nat) (st : StState) : List OutChunk × StState :=
  if st.toolCallFragments = [] then ([], st)
  else
    match streamResolve now st.toolCallFragments with
    | [] => ([], st)
    | tc0 :: tcs =>
      let tcChunks := ((tc0 :: tcs).enum).foldr (fun q acc =>
        OutChunk.toolCallStart q.1 q.2.id q.2.name ::
          OutChunk.toolCallArgs q.1 q.2.id q.2.args :: acc) []
      let contentChunks :=
        if st.bufferedContent ≠ [] ∧ listTrim st.bufferedContent ≠ [] then
          (if listTrim (removeGlm st.bufferedContent) ≠ [] then
            [OutChunk.content (splitFirstSep (S "\n\n") (listTrim (removeGlm st.bufferedContent)))]
           else [])
        else []
      (tcChunks ++ contentChunks ++
        [OutChunk.finish (S "tool_calls") (truthyOpt st.toolUsage), OutChunk.done],
       { st with streamEnded := true })

/-- `_sendEndChunk` with its duplicate-close guard: nothing when the stream
has already ended; otherwise in tool mode try the textual fallback extractor
`E`, else emit the cleaned buffer via `R`, and always finish with a single
finish chunk and `[DONE]`. -/
def sendEndChunk (E : Str → Option (List ExtTC)) (R : Str → Str) (st : StState) :
    List OutChunk × StState :=
  if st.streamEnded then ([], st)
  else if st.hasTools then
    match E st.bufferedContent with
    | some tcs =>
      ((tcs.enum).map (fun q => OutChunk.fallbackToolCall q.1 q.2) ++
        [OutChunk.finish (S "tool_calls") none, OutChunk.done],
       { st with streamEnded := true })
    | none =>
      ((if R st.bufferedContent ≠ [] then [OutChunk.content (R st.bufferedContent)] else []) ++
        [OutChunk.finish (S "stop") none, OutChunk.done],
       { st with streamEnded := true })
  else
    ([OutChunk.finish (S "stop") none, OutChunk.done], { st with streamEnded := true })

/-- One event of the upstream stream as seen by the translator loop. -/
inductive SEvent where
  | payload (p : Payload)
  | fault

/-- The `for await` loop of `StreamResponseHandler.handle`, including the
error short-circuit, the three end-of-run triggers and the catch block for a
mid-stream fault (which force-closes with a stop finish if not yet ended).
A normally exhausted stream with no done signal just stops (the `finally`
only marks the flag). -/
def loopS (T : Str → Str) (E : Str → Option (List ExtTC)) (R : Str → Str) (now : Nat) :
    StState → List SEvent → List OutChunk × StState
  | st, [] => ([], st)
  | st, .fault :: _ =>
    if st.streamEnded = true then ([], { st with streamEnded := true })
    else ([OutChunk.finish (S "stop") none, OutChunk.done], { st with streamEnded := true })
  | st, .payload p :: rest =>
    if hasErrorP p = true then
      (if st.streamEnded = true then ([], st)
       else ([OutChunk.finish (S "stop") none, OutChunk.done], { st with streamEnded := true }))
    else
      let r1 := processContent T st false p
      if r1.2.streamEnded = true then r1
      else if r1.2.toolCallFinishReceived = true ∧ p.phase ≠ S "tool_call" ∧
          r1.2.hasTools = true ∧ r1.2.toolCallFragments ≠ [] ∧ r1.2.streamEnded = false then
        let r2 := processMultipleToolCalls now r1.2
        (r1.1 ++ r2.1, r2.2)
      else if (p.done = true ∨ p.phase = S "done") ∧ r1.2.streamEnded = false then
        if r1.2.hasTools = true ∧ r1.2.toolCallFragments ≠ [] then
          let r2 := processMultipleToolCalls now r1.2
          (r1.1 ++ r2.1, r2.2)
        else
          let r2 := sendEndChunk E R r1.2
          (r1.1 ++ r2.1, { r2.2 with streamEnded := true })
      else
        let r := loopS T E R now r1.2 rest
        (r1.1 ++ r.1, r.2)

/-- Initial run state. -/
def initStState (hasTools : Bool) : StState :=
  { hasTools := hasTools, bufferedContent := [], streamEnded := false,
    toolUsage := none, toolCallFragments := [], toolCallFinishReceived := false }

/-- `StreamResponseHandler.handle`: upstream-call failure and non-OK status
emit one raw error line and stop; otherwise the role chunk then the loop. -/
def handleStream (T : Str → Str) (E : Str → Option (List ExtTC)) (R : Str → Str) (now : Nat)
    (hasTools : Bool) (callOk statusOk : Bool) (events : List SEvent) : List OutChunk :=
  if callOk = false then [OutChunk.errorRaw (S "Failed to call upstream")]
  else if statusOk = false then [OutChunk.errorRaw (S "Upstream error")]
  else OutChunk.role :: (loopS T E R now (initStState hasTools) events).1


/-- Is a chunk the `[DONE]` sentinel. -/
def isDoneChunk : OutChunk → Bool
  | .done => true
  | _ => false

/-- Is a chunk a finish-reason chunk. -/
def isFinishChunk : OutChunk → Bool
  | .finish _ _ => true
  | _ => false

theorem countP_term_pair_le (q : OutChunk → Bool)
    (hterm : q OutChunk.done = false ∨ ∀ r u, q (OutChunk.finish r u) = false)
    (r : Str) (u : Option Json) :
    ([OutChunk.finish r u, OutChunk.done].countP q) ≤ 1 := by
  rcases hterm with h | h <;>
    simp [List.countP_cons, List.countP_nil, h] <;> split_ifs <;> simp

set_option maxHeartbeats 1600000 in
theorem processContent_countP (T : Str → Str) (st : StState) (b : Bool) (p : Payload)
    (q : OutChunk → Bool)
    (hcontent : ∀ s, q (OutChunk.content s) = false)
    (hreason : ∀ s, q (OutChunk.reasoning s) = false) :
    (processContent T st b p).1.countP q = 0 := by
  simp only [processContent]
  repeat' split
  all_goals try rfl
  all_goals simp [List.countP_append, List.countP_cons, List.countP_nil, hcontent, hreason]

theorem tcChunks_countP (q : OutChunk → Bool)
    (h1 : ∀ i id n, q (OutChunk.toolCallStart i id n) = false)
    (h2 : ∀ i id a, q (OutChunk.toolCallArgs i id a) = false)
    (l : List (Nat × StreamTC)) :
    (l.foldr (fun x acc =>
      OutChunk.toolCallStart x.1 x.2.id x.2.name ::
        OutChunk.toolCallArgs x.1 x.2.id x.2.args :: acc) []).countP q = 0 := by
  induction l with
  | nil => rfl
  | cons x t ih => simp [List.countP_cons, h1, h2, ih]

theorem processMultipleToolCalls_countP (now : Nat) (st : StState) (q : OutChunk → Bool)
    (hcontent : ∀ s, q (OutChunk.content s) = false)
    (h1 : ∀ i id n, q (OutChunk.toolCallStart i id n) = false)
    (h2 : ∀ i id a, q (OutChunk.toolCallArgs i id a) = false)
    (hterm : q OutChunk.done = false ∨ ∀ r u, q (OutChunk.finish r u) = false) :
    (processMultipleToolCalls now st).1.countP q ≤ 1 := by
  unfold processMultipleToolCalls
  split
  · simp
  · split
    · simp
    · simp only [List.countP_append, tcChunks_countP q h1 h2]
      have hp := countP_term_pair_le q hterm (S "tool_calls") (truthyOpt st.toolUsage)
      split_ifs <;>
        simp_all [List.countP_cons, List.countP_nil, hcontent]

theorem fallback_countP (q : OutChunk → Bool)
    (h : ∀ i tc, q (OutChunk.fallbackToolCall i tc) = false) (l : List (Nat × ExtTC)) :
    (l.map (fun x => OutChunk.fallbackToolCall x.1 x.2)).countP q = 0 := by
  induction l with
  | nil => rfl
  | cons x t ih => simp [List.countP_cons, h, ih]

theorem sendEndChunk_countP (E : Str → Option (List ExtTC)) (R : Str → Str) (st : StState)
    (q : OutChunk → Bool)
    (hcontent : ∀ s, q (OutChunk.content s) = false)
    (hfb : ∀ i tc, q (OutChunk.fallbackToolCall i tc) = false)
    (hterm : q OutChunk.done = false ∨ ∀ r u, q (OutChunk.finish r u) = false) :
    (sendEndChunk E R st).1.countP q ≤ 1 := by
  unfold sendEndChunk
  have hp1 := countP_term_pair_le q hterm (S "tool_calls") none
  have hp2 := countP_term_pair_le q hterm (S "stop") none
  split
  · simp
  · split
    · split
      · simp only [List.countP_append, fallback_countP q hfb]
        simp_all
      · simp only [List.countP_append]
        split_ifs <;> simp_all [List.countP_cons, List.countP_nil, hcontent]
    · simp_all

theorem sendEndChunk_idempotent (E : Str → Option (List ExtTC)) (R : Str → Str) (st : StState)
    (h : st.streamEnded = true) : sendEndChunk E R st = ([], st) := by
  unfold sendEndChunk
  rw [if_pos h]

theorem loopS_countP (T : Str → Str) (E : Str → Option (List ExtTC)) (R : Str → Str)
    (now : Nat) (q : OutChunk → Bool)
    (hcontent : ∀ s, q (OutChunk.content s) = false)
    (hreason : ∀ s, q (OutChunk.reasoning s) = false)
    (h1 : ∀ i id n, q (OutChunk.toolCallStart i id n) = false)
    (h2 : ∀ i id a, q (OutChunk.toolCallArgs i id a) = false)
    (hfb : ∀ i tc, q (OutChunk.fallbackToolCall i tc) = false)
    (hterm : q OutChunk.done = false ∨ ∀ r u, q (OutChunk.finish r u) = false) :
    ∀ (events : List SEvent) (st : StState), (loopS T E R now st events).1.countP q ≤ 1 := by
  intro events
  induction events with
  | nil => intro st; simp [loopS]
  | cons e rest ih =>
    intro st
    cases e with
    | fault =>
      simp only [loopS]
      split
      · simp
      · exact countP_term_pair_le q hterm (S "stop") none
    | payload p =>
      have hpc := processContent_countP T st false p q hcontent hreason
      simp only [loopS]
      split
      · split
        · simp
        · exact countP_term_pair_le q hterm (S "stop") none
      · split
        · omega
        · split
          · have hmt := processMultipleToolCalls_countP now
              (processContent T st false p).2 q hcontent h1 h2 hterm
            simp only [List.countP_append]
            omega
          · split
            · split
              · have hmt := processMultipleToolCalls_countP now
                  (processContent T st false p).2 q hcontent h1 h2 hterm
                simp only [List.countP_append]
                omega
              · have hse := sendEndChunk_countP E R
                  (processContent T st false p).2 q hcontent hfb hterm
                simp only [List.countP_append]
                omega
            · have hr := ih (processContent T st false p).2
              simp only [List.countP_append]
              omega

/-- Claim C1: a streaming run emits at most one terminal sequence, for any
input: at most one `[DONE]` sentinel and at most one finish-reason chunk,
whether the run ends by normal done signal, tool-call reassembly, an upstream
error payload, or a mid-stream fault; and the close is idempotent —
`_sendEndChunk` on an already-ended run emits nothing and leaves the state
unchanged. -/
theorem c1_at_most_one_terminal (T : Str → Str) (E : Str → Option (List ExtTC))
    (R : Str → Str) (now : Nat) (hasTools callOk statusOk : Bool) (events : List SEvent) :
    (handleStream T E R now hasTools callOk statusOk events).countP isDoneChunk ≤ 1 ∧
    (handleStream T E R now hasTools callOk statusOk events).countP isFinishChunk ≤ 1 ∧
    (∀ st : StState, st.streamEnded = true → sendEndChunk E R st = ([], st)) := by
  refine ⟨?_, ?_, fun st h => sendEndChunk_idempotent E R st h⟩
  · have hl := loopS_countP T E R now isDoneChunk
      (fun _ => rfl) (fun _ => rfl) (fun _ _ _ => rfl) (fun _ _ _ => rfl) (fun _ _ => rfl)
      (Or.inr (fun _ _ => rfl)) events (initStState hasTools)
    unfold handleStream
    split
    · simp [isDoneChunk]
    · split
      · simp [isDoneChunk]
      · simp only [List.countP_cons]
        simp [isDoneChunk, hl]
  · have hl := loopS_countP T E R now isFinishChunk
      (fun _ => rfl) (fun _ => rfl) (fun _ _ _ => rfl) (fun _ _ _ => rfl) (fun _ _ => rfl)
      (Or.inl rfl) events (initStState hasTools)
    unfold handleStream
    split
    · simp [isFinishChunk]
    · split
      · simp [isFinishChunk]
      · simp only [List.countP_cons]
        simp [isFinishChunk, hl]

/-- An answer payload that also carries a top-level error object. -/
def errorPayload : Payload :=
  { phase := S "answer", delta_content := S "A", topError := some (Json.bool true) }

/-- A payload carrying only the done signal. -/
def donePayload : Payload := { phase := S "other", done := true }

/-- A run state whose stream has already been closed. -/
def endedState : StState :=
  { hasTools := true, bufferedContent := S "x", streamEnded := true, toolUsage := none,
    toolCallFragments := [], toolCallFinishReceived := false }

/-- Witness for `c1_at_most_one_terminal`: a run containing an error payload
followed by a done payload, and the idempotence conjunct discharged at a
concrete already-ended state. -/
theorem c1_witness :
    (handleStream (fun s => s) (fun _ => none) (fun s => s) 0 false true true
      [SEvent.payload errorPayload, SEvent.payload donePayload]).countP isDoneChunk ≤ 1 ∧
    sendEndChunk (fun _ => none) (fun s => s) endedState = ([], endedState) :=
  ⟨(c1_at_most_one_terminal (fun s => s) (fun _ => none) (fun s => s) 0 false true true
      [SEvent.payload errorPayload, SEvent.payload donePayload]).1,
   (c1_at_most_one_terminal (fun s => s) (fun _ => none) (fun s => s) 0 false true true
      [SEvent.payload errorPayload, SEvent.payload donePayload]).2.2 endedState rfl⟩

/-!  ### The aggregate translator (`NonStreamResponseHandler.handle`)

The loop collects `delta_content` of every phase (after the thinking
transform), gathers tool-call fragments only when the handler was constructed
with tools enabled, and never inspects the error fields; the final document
is built after the loop.  The loop body is `nsStep` (returning the new state
and whether iteration continues), mirroring the source's `continue`/`break`
structure. -/

/-- `Map.get` over the aggregate handler's `Map`s keyed by tool id. -/
def lookupJ {α : Type} : List (Json × α) → Json → Option α
  | [], _ => none
  | p :: t, k => if beqJson p.1 k then some p.2 else lookupJ t k

/-- Mutable per-run state of `NonStreamResponseHandler`. -/
structure NsState where
  nsToolCallFragments : List (Int × Str)
  nsToolCallFinishReceived : Bool
  nsUsage : Option Json
  nsToolOrder : List Json
  nsToolNames : List (Json × Json)
  nsToolArgs : List (Json × Str)
  fullContent : List Str

/-- `_processNonStreamMultipleToolCalls`: resolve the fragments exactly as the
streaming path does, but deduplicate by tool id into the order/name/args maps
(`!nsToolOrder.includes(toolId)`: first occurrence wins); the generated
fallback id is numbered from the current `nsToolOrder.length`. -/
def nsProcessFragments (now : Nat) (st : NsState) : NsState :=
  if st.nsToolCallFragments = [] then st
  else
    (extractBlocks (glmFullContent st.nsToolCallFragments)).foldl (fun st block =>
      match jsonParse block with
      | none => st
      | some parsed =>
        let md := metadataOf parsed
        let tid := (truthyOpt (jsProp md (S "id"))).getD
          (.str (S "call_" ++ natStr now ++ '_' :: natStr (st.nsToolOrder.length + 1)))
        let tname := (truthyOpt (jsProp md (S "name"))).getD (.str (S "unknown"))
        let targs := normalizeArgsJ ((truthyOpt (jsProp md (S "arguments"))).getD
          (.str (S "\x7b\x7d")))
        if st.nsToolOrder.any (fun x => beqJson x tid) then st
        else
          { st with
            nsToolOrder := st.nsToolOrder ++ [tid]
            nsToolNames := st.nsToolNames ++ [(tid, tname)]
            nsToolArgs := st.nsToolArgs ++ [(tid, targs)] }) st

/-- One iteration of the aggregate loop; the Boolean is whether iteration
continues (`false` on the done signal's `break`).  Note: no error check of
any kind is performed — `_hasError` is private to the streaming handler and
the aggregate loop never reads the error fields. -/
def nsStep (T : Str → Str) (hasTools : Bool) (now : Nat) (st : NsState) (p : Payload) :
    NsState × Bool :=
  if hasTools = true ∧ p.phase = S "tool_call" ∧ p.edit_content ≠ [] then
    ({ st with nsToolCallFragments :=
      insertFragment st.nsToolCallFragments (p.edit_index.getD 0) p.edit_content }, true)
  else
    let st1 := if p.phase = S "answer" ∧ p.usage.isSome then { st with nsUsage := p.usage } else st
    let st2 := if p.phase = S "answer" ∧ p.choicesFinish = some (S "stop")
               then { st1 with nsToolCallFinishReceived := true } else st1
    if p.phase = S "answer" ∧ p.choicesFinish.isSome then (st2, true)
    else if p.phase = S "other" ∧ p.usage.isSome then ({ st2 with nsUsage := p.usage }, true)
    else
      let st3 :=
        if p.delta_content ≠ [] then
          (if (if p.phase = S "thinking" then T p.delta_content else p.delta_content) ≠ []
           then { st2 with fullContent := st2.fullContent ++
             [if p.phase = S "thinking" then T p.delta_content else p.delta_content] }
           else st2)
        else st2
      let st4 :=
        if st3.nsToolCallFinishReceived = true ∧ p.phase ≠ S "tool_call" ∧ hasTools = true ∧
            st3.nsToolCallFragments ≠ []
        then nsProcessFragments now st3 else st3
      if p.done = true ∨ p.phase = S "done" then (st4, false) else (st4, true)

/-- The aggregate `for await` loop. -/
def nsLoop (T : Str → Str) (hasTools : Bool) (now : Nat) : NsState → List Payload → NsState
  | st, [] => st
  | st, p :: rest =>
    let r := nsStep T hasTools now st p
    if r.2 = true then nsLoop T hasTools now r.1 rest else r.1

/-- One entry of the final document's `tool_calls`. -/
structure NsToolCall where
  id : Json
  name : Json
  arguments : Str

/-- The final aggregate document (the claim-relevant fields of the
`chat.completion` response: message content, tool calls, finish reason,
usage). -/
structure NSDoc where
  content : Option Str
  tool_calls : Option (List NsToolCall)
  finish_reason : Str
  usage : Json

/-- The all-zero usage default. -/
def zeroUsage : Json :=
  .obj [(S "prompt_tokens", .num (S "0")), (S "completion_tokens", .num (S "0")),
        (S "total_tokens", .num (S "0"))]

/-- Initial aggregate state. -/
def initNsState : NsState :=
  { nsToolCallFragments := [], nsToolCallFinishReceived := false, nsUsage := none,
    nsToolOrder := [], nsToolNames := [], nsToolArgs := [], fullContent := [] }

/-- `NonStreamResponseHandler.handle` (success path): run the loop, run the
final leftover-fragment pass, then build the document.  With resolved tool
invocations the message content is unconditionally `null` and the finish
reason `"tool_calls"` (the cleaned-content computation at lines 953-956 is a
dead store, immediately overwritten); otherwise the content is the
concatenation of ALL collected delta text and the finish reason `"stop"`. -/
def nonStreamHandle (T : Str → Str) (hasTools : Bool) (now : Nat)
    (events : List Payload) : NSDoc :=
  let st0 := nsLoop T hasTools now initNsState events
  let st :=
    if st0.nsToolCallFinishReceived = true ∧ hasTools = true ∧
        st0.nsToolCallFragments ≠ [] ∧ st0.nsToolOrder.length = 0
    then nsProcessFragments now st0 else st0
  if hasTools = true ∧ st.nsToolOrder.length ≠ 0 then
    { content := none,
      tool_calls := some (st.nsToolOrder.map (fun tid =>
        { id := tid,
          name :=
            (match truthyOpt (lookupJ st.nsToolNames tid) with
             | some n => n
             | none => .str (S "unknown")),
          arguments :=
            (if (jsonParse ((match lookupJ st.nsToolArgs tid with
                  | some a => (if a ≠ [] then a else S "\x7b\x7d")
                  | none => S "\x7b\x7d"))).isSome
             then (match lookupJ st.nsToolArgs tid with
                  | some a => (if a ≠ [] then a else S "\x7b\x7d")
                  | none => S "\x7b\x7d")
             else S "\x7b\x7d") })),
      finish_reason := S "tool_calls",
      usage := (truthyOpt st.nsUsage).getD zeroUsage }
  else
    { content := some st.fullContent.flatten, tool_calls := none,
      finish_reason := S "stop", usage := (truthyOpt st.nsUsage).getD zeroUsage }

/-- Claim C3 (code-bug witness): in aggregate mode with no invocations the
final message content is NOT the concatenation of the answer-phase text — the
collection loop pushes `delta_content` of every phase, so the other-phase
text `X` lands in the content alongside the answer text `A` (contradicting
the source's own comment that `fullContent` is collected only in the answer
phase); the finish reason is `stop`. -/
theorem c3_nonanswer_text_in_content :
    nonStreamHandle (fun s => s) false 0
      [{ phase := S "other", delta_content := S "X" },
       { phase := S "answer", delta_content := S "A" },
       { phase := S "other", done := true }] =
    { content := some (S "XA"), tool_calls := none, finish_reason := S "stop",
      usage := zeroUsage } := rfl

/-- A payload with its three error positions cleared. -/
def clearErrorFields (p : Payload) : Payload :=
  { p with topError := none, dataError := none, inner := none }

theorem nsStep_ignores_errors (T : Str → Str) (hasTools : Bool) (now : Nat)
    (st : NsState) (p : Payload) :
    nsStep T hasTools now st (clearErrorFields p) = nsStep T hasTools now st p := by
  cases p
  rfl

theorem nsLoop_ignores_errors (T : Str → Str) (hasTools : Bool) (now : Nat)
    (events : List Payload) : ∀ st : NsState,
    nsLoop T hasTools now st (events.map clearErrorFields) = nsLoop T hasTools now st events := by
  induction events with
  | nil => intro st; rfl
  | cons p rest ih =>
    intro st
    simp only [List.map_cons, nsLoop, nsStep_ignores_errors]
    split
    · exact ih _
    · rfl

/-- Claim C6 (amended): the STREAMING translator checks every decoded payload
for an error first and any match short-circuits the run to an idempotent
error-close (nothing further from the rest of the stream; nothing at all if
the run had already closed); the AGGREGATE translator, by contrast, performs
no error check whatsoever — its result is invariant under erasing all three
error positions of every payload. -/
theorem c6_error_check_streaming_only :
    (∀ (T : Str → Str) (E : Str → Option (List ExtTC)) (R : Str → Str) (now : Nat)
       (st : StState) (p : Payload) (rest : List SEvent),
      hasErrorP p = true →
      loopS T E R now st (SEvent.payload p :: rest) =
        (if st.streamEnded = true then ([], st)
         else ([OutChunk.finish (S "stop") none, OutChunk.done],
               { st with streamEnded := true }))) ∧
    (∀ (T : Str → Str) (hasTools : Bool) (now : Nat) (events : List Payload),
      nonStreamHandle T hasTools now (events.map clearErrorFields) =
        nonStreamHandle T hasTools now events) := by
  constructor
  · intro T E R now st p rest h
    simp only [loopS]
    rw [if_pos h]
  · intro T hasTools now events
    simp only [nonStreamHandle, nsLoop_ignores_errors]

/-- Claim C6 (counterexample to the claim as stated): the aggregate
translator does not short-circuit on an error payload — a payload carrying a
top-level error is processed normally (its text `A` reaches the final
content together with the following payload's `B`) and the run closes with a
plain `stop` document. -/
theorem c6_counterexample :
    nonStreamHandle (fun s => s) false 0
      [{ phase := S "answer", delta_content := S "A", topError := some (Json.bool true) },
       { phase := S "answer", delta_content := S "B" },
       { phase := S "other", done := true }] =
    { content := some (S "AB"), tool_calls := none, finish_reason := S "stop",
      usage := zeroUsage } := rfl

/-- Witness for `c6_error_check_streaming_only` at a concrete error payload:
the streaming loop stops at the error payload and emits exactly the error
close. -/
theorem c6_witness :
    loopS (fun s => s) (fun _ => none) (fun s => s) 0 (initStState false)
      [SEvent.payload errorPayload, SEvent.payload donePayload] =
      ([OutChunk.finish (S "stop") none, OutChunk.done],
       { initStState false with streamEnded := true }) := by
  rw [c6_error_check_streaming_only.1 (fun s => s) (fun _ => none) (fun s => s) 0
    (initStState false) errorPayload [SEvent.payload donePayload] rfl]
  rfl

/-- Claim C7 (code-bug witness): in non-tool mode EVERY answer-phase payload
carrying `edit_content` receives the initial-content treatment, not only the
first one: the `sentInitialAnswer = true` assignment happens on the callee's
by-value copy and the caller's flag never changes, so both payloads below
have their text split at `</details>` and emitted. -/
theorem c7_every_edit_payload_initial :
    handleStream (fun s => s) (fun _ => none) (fun s => s) 0 false true true
      [SEvent.payload { phase := S "answer", edit_content := S "x</details>A" },
       SEvent.payload { phase := S "answer", edit_content := S "y</details>B" },
       SEvent.payload donePayload] =
    [OutChunk.role, OutChunk.content (S "A"), OutChunk.content (S "B"),
     OutChunk.finish (S "stop") none, OutChunk.done] := rfl

/-- A tool_call-phase payload that flips a tools-disabled run into tool mode. -/
def toolSwitchPayload : Payload :=
  { phase := S "tool_call", edit_content := S "frag", edit_index := some 0 }

/-- An answer payload carrying text and a non-stop finish value. -/
def answerFinishPayload : Payload :=
  { phase := S "answer", delta_content := S "X", choicesFinish := some (S "length") }

/-- Claim C10 (counterexample to the claim as stated): after the tool_call
payload switched the run into tool mode, an answer payload that carries a
finish value has its text `X` neither emitted nor appended to the buffer —
the buffer stays empty, contradicting "every answer-phase text is appended to
the buffer". -/
theorem c10_counterexample :
    (loopS (fun s => s) (fun _ => none) (fun s => s) 0 (initStState false)
      [SEvent.payload toolSwitchPayload, SEvent.payload answerFinishPayload]).1 = [] ∧
    (loopS (fun s => s) (fun _ => none) (fun s => s) 0 (initStState false)
      [SEvent.payload toolSwitchPayload, SEvent.payload answerFinishPayload]).2.bufferedContent
      = [] ∧
    contentOf answerFinishPayload ≠ [] :=
  ⟨rfl, rfl, by decide⟩

set_option maxHeartbeats 3200000 in
/-- Claim C10 (amended): a tool_call-phase payload permanently switches the
run into tool mode even when the run was constructed with tools disabled
(`hasTools` is set by the payload and never reset by any later payload), and
from then on every answer-phase payload that carries no finish value has its
text appended to the buffer instead of being emitted. -/
theorem c10_tool_mode_latch (T : Str → Str) (st : StState) (b : Bool) (p : Payload) :
    (p.phase = S "tool_call" → (processContent T st b p).2.hasTools = true) ∧
    (st.hasTools = true → (processContent T st b p).2.hasTools = true) ∧
    (st.hasTools = true → p.phase = S "answer" → p.choicesFinish = none →
      (processContent T st b p).1 = [] ∧
      (processContent T st b p).2.bufferedContent = st.bufferedContent ++ contentOf p) := by
  refine ⟨?_, ?_, ?_⟩
  · intro h
    have hne : ¬(contentOf p = [] ∧ p.phase ≠ S "tool_call") := fun hc => hc.2 h
    simp only [processContent]
    rw [if_neg hne, if_pos h]
    split <;> rfl
  · intro h
    simp only [processContent]
    repeat' split
    all_goals simp_all
  · intro h1 h2 h3
    have d1 : ¬(p.phase = S "tool_call") := by rw [h2]; decide
    have d2 : ¬(p.phase = S "other") := by rw [h2]; decide
    have d3 : ¬(p.phase = S "thinking") := by rw [h2]; decide
    have d4 : ¬(p.choicesFinish = some (S "stop")) := by rw [h3]; simp
    have d5 : ¬(p.choicesFinish.isSome = true) := by rw [h3]; simp
    by_cases hc : contentOf p = []
    · simp only [processContent]
      rw [if_pos ⟨hc, d1⟩, hc, List.append_nil]
      exact ⟨rfl, rfl⟩
    · simp only [processContent]
      rw [if_neg (fun hx => hc hx.1), if_neg d1]
      constructor <;>
      · split_ifs <;> simp_all

/-- A plain answer payload with text `X`. -/
def answerXPayload : Payload := { phase := S "answer", delta_content := S "X" }

/-- Witness for `c10_tool_mode_latch`: the switch discharged on a concrete
tool_call payload against a tools-disabled run, and the buffering conjunct on
a concrete answer payload in tool mode. -/
theorem c10_witness :
    (processContent (fun s => s) (initStState false) false toolSwitchPayload).2.hasTools = true ∧
    (processContent (fun s => s) (initStState true) false answerXPayload).1 = [] ∧
    (processContent (fun s => s) (initStState true) false answerXPayload).2.bufferedContent =
      (initStState true).bufferedContent ++ contentOf answerXPayload :=
  ⟨(c10_tool_mode_latch (fun s => s) (initStState false) false toolSwitchPayload).1 rfl,
   ((c10_tool_mode_latch (fun s => s) (initStState true) false answerXPayload).2.2 rfl rfl rfl).1,
   ((c10_tool_mode_latch (fun s => s) (initStState true) false answerXPayload).2.2 rfl rfl rfl).2⟩

/-!  ### Claim C4: arrival-order independence of fragment reassembly -/

/-- Feed the arriving `(edit_index, edit_content)` pairs into the fragment
map in arrival order (what `_processContent` does with `Map.set`). -/
def buildFragments (arrivals : List (Int × Str)) : List (Int × Str) :=
  arrivals.foldl (fun m kv => insertFragment m kv.1 kv.2) []

/-- The invocations a run resolves from fragments fed in the given arrival
order. -/
def resolveFromArrivals (now : Nat) (arrivals : List (Int × Str)) : List StreamTC :=
  streamResolve now (buildFragments arrivals)

theorem insertFragment_fresh (m : List (Int × Str)) (k : Int) (v : Str)
    (h : k ∉ m.map Prod.fst) : insertFragment m k v = m ++ [(k, v)] := by
  unfold insertFragment
  rw [if_neg]
  intro hany
  rcases List.any_eq_true.mp hany with ⟨p, hp, he⟩
  exact h (List.mem_map.mpr ⟨p, hp, of_decide_eq_true he⟩)

theorem buildFragments_aux (l : List (Int × Str)) : ∀ m : List (Int × Str),
    ((m.map Prod.fst) ++ (l.map Prod.fst)).Nodup →
    l.foldl (fun m kv => insertFragment m kv.1 kv.2) m = m ++ l := by
  induction l with
  | nil => intro m _; simp
  | cons kv t ih =>
    intro m h
    rw [List.map_cons] at h
    have hk : kv.1 ∉ m.map Prod.fst := by
      rcases List.nodup_append.mp h with ⟨_, _, hdis⟩
      intro hmem
      exact hdis hmem (List.mem_cons_self _ _)
    rw [List.foldl_cons, insertFragment_fresh m kv.1 kv.2 hk]
    have h2 : (((m ++ [(kv.1, kv.2)]).map Prod.fst) ++ (t.map Prod.fst)).Nodup := by
      rw [List.map_append]
      rw [show [(kv.1, kv.2)].map Prod.fst = [kv.1] from rfl]
      rw [List.append_assoc, List.singleton_append]
      exact h
    rw [show ((kv.1, kv.2) : Int × Str) = kv from rfl] at h2 ⊢
    rw [ih (m ++ [kv]) h2, List.append_assoc, List.singleton_append]

theorem buildFragments_nodup (l : List (Int × Str)) (h : (l.map Prod.fst).Nodup) :
    buildFragments l = l := by
  unfold buildFragments
  rw [buildFragments_aux l [] (by simpa using h), List.nil_append]

theorem lookupKey_eq_none_iff (k : Int) (l : List (Int × Str)) :
    lookupKey k l = none ↔ k ∉ l.map Prod.fst := by
  induction l with
  | nil => simp [lookupKey]
  | cons p t ih =>
    unfold lookupKey
    by_cases hp : p.1 = k
    · rw [if_pos hp]
      simp [hp]
    · rw [if_neg hp]
      simp only [List.map_cons, List.mem_cons]
      rw [ih]
      constructor
      · intro hx hc
        rcases hc with hc | hc
        · exact hp hc.symm
        · exact hx hc
      · intro hx
        exact fun hc => hx (Or.inr hc)

theorem lookupKey_eq_some_of_mem (k : Int) (v : Str) (l : List (Int × Str))
    (hn : (l.map Prod.fst).Nodup) (hmem : (k, v) ∈ l) : lookupKey k l = some v := by
  induction l with
  | nil => exact absurd hmem (by simp)
  | cons p t ih =>
    rw [List.map_cons, List.nodup_cons] at hn
    rcases List.mem_cons.mp hmem with he | hm
    · rw [← he]
      unfold lookupKey
      rw [if_pos rfl]
    · unfold lookupKey
      by_cases hp : p.1 = k
      · exfalso
        exact hn.1 (hp ▸ List.mem_map.mpr ⟨(k, v), hm, rfl⟩)
      · rw [if_neg hp]
        exact ih hn.2 hm

theorem lookupKey_mem_of_eq_some (k : Int) (v : Str) (l : List (Int × Str))
    (h : lookupKey k l = some v) : (k, v) ∈ l := by
  induction l with
  | nil => exact absurd h (by simp [lookupKey])
  | cons p t ih =>
    unfold lookupKey at h
    by_cases hp : p.1 = k
    · rw [if_pos hp] at h
      obtain ⟨a, b⟩ := p
      have hb : b = v := Option.some_inj.mp h
      have ha : a = k := hp
      exact List.mem_cons.mpr (Or.inl (by rw [← ha, ← hb]))
    · rw [if_neg hp] at h
      exact List.mem_cons_of_mem p (ih h)

theorem lookupKey_perm (l1 l2 : List (Int × Str)) (hp : l1.Perm l2)
    (hn : (l1.map Prod.fst).Nodup) (k : Int) : lookupKey k l1 = lookupKey k l2 := by
  have hn2 : (l2.map Prod.fst).Nodup := ((hp.map Prod.fst).nodup_iff).mp hn
  cases h1 : lookupKey k l1 with
  | none =>
    have := (lookupKey_eq_none_iff k l1).mp h1
    rw [Eq.comm]
    rw [lookupKey_eq_none_iff]
    intro hc
    exact this ((hp.map Prod.fst).mem_iff.mpr hc)
  | some v =>
    have hm := lookupKey_mem_of_eq_some k v l1 h1
    rw [Eq.comm]
    exact lookupKey_eq_some_of_mem k v l2 hn2 (hp.mem_iff.mp hm)

theorem sortedFragmentValues_perm (l1 l2 : List (Int × Str)) (hp : l1.Perm l2)
    (hn : (l1.map Prod.fst).Nodup) :
    sortedFragmentValues l1 = sortedFragmentValues l2 := by
  unfold sortedFragmentValues
  have hs : List.insertionSort (fun a b => a ≤ b) (l1.map Prod.fst) =
      List.insertionSort (fun a b => a ≤ b) (l2.map Prod.fst) :=
    List.eq_of_perm_of_sorted
      ((List.perm_insertionSort _ _).trans ((hp.map Prod.fst).trans
        (List.perm_insertionSort _ _).symm))
      (List.sorted_insertionSort _ _) (List.sorted_insertionSort _ _)
  rw [hs]
  exact List.map_congr_left (fun k _ => by rw [lookupKey_perm l1 l2 hp hn k])

/-- Claim C4: fragment reassembly depends only on the `(index, text)` set,
not on arrival order — for fragments with pairwise-distinct indices, feeding
any permutation of them to a run yields the same resolved invocations
(resolution reads the map sorted by index ascending and keeps only the first
accumulated block). -/
theorem c4_reassembly_perm_invariant (now : Nat) (arrivals1 arrivals2 : List (Int × Str))
    (hp : arrivals1.Perm arrivals2) (hn : (arrivals1.map Prod.fst).Nodup) :
    resolveFromArrivals now arrivals1 = resolveFromArrivals now arrivals2 := by
  have hn2 : (arrivals2.map Prod.fst).Nodup := ((hp.map Prod.fst).nodup_iff).mp hn
  unfold resolveFromArrivals
  rw [buildFragments_nodup arrivals1 hn, buildFragments_nodup arrivals2 hn2]
  unfold streamResolve glmFullContent
  rw [sortedFragmentValues_perm arrivals1 arrivals2 hp hn]

/-- First half of a tool-call block split mid-JSON. -/
def glmFragA : Str :=
  S "<glm_block view=\"\">\x7b\"metadata\":\x7b\"id\":\"call_1\",\"name\":\"f\",\"arguments\":\"\x7b\\\"x\\\":1\x7d\""

/-- Second half of the same tool-call block. -/
def glmFragB : Str := S "\x7d\x7d</glm_block>"

/-- Witness for `c4_reassembly_perm_invariant`: the two halves of one block
fed in the two possible arrival orders resolve identically. -/
theorem c4_witness :
    resolveFromArrivals 0 [((0 : Int), glmFragA), (1, glmFragB)] =
      resolveFromArrivals 0 [((1 : Int), glmFragB), (0, glmFragA)] :=
  c4_reassembly_perm_invariant 0 [((0 : Int), glmFragA), (1, glmFragB)]
    [((1 : Int), glmFragB), (0, glmFragA)] (by decide) (by decide)

/-!  ### Claim C5: arguments normalization -/

/-- Claim C5 (counterexample to the claim as stated): `"[]"` is valid JSON
text (a string literal), yet it is NOT used unchanged — because it starts and
ends with a double quote the quoted-string branch runs first and unescapes
it, so the result is `[]`. -/
theorem c5_counterexample :
    (jsonParse (S "\"[]\"")).isSome = true ∧
    normalizeArgsStr (S "\"[]\"") = S "[]" ∧
    S "[]" ≠ S "\"[]\"" :=
  ⟨rfl, rfl, by decide⟩

/-- Claim C5 (amended): the quoted-string check runs FIRST — a value that
starts and ends with a double quote and parses to a JSON string whose content
is valid JSON is unescaped exactly once and the content is used; otherwise
valid JSON text is used unchanged; any parse failure at any stage yields
`"{}"`. -/
theorem c5_args_normalization (s u : Str) :
    (startsWithS (S "\"") s = true → endsWithS (S "\"") s = true →
      jsonParse s = some (Json.str u) → (jsonParse u).isSome = true →
      normalizeArgsStr s = u) ∧
    (¬(startsWithS (S "\"") s = true ∧ endsWithS (S "\"") s = true) →
      (jsonParse s).isSome = true → normalizeArgsStr s = s) ∧
    ((jsonParse s).isSome = false → normalizeArgsStr s = S "\x7b\x7d") ∧
    (startsWithS (S "\"") s = true → endsWithS (S "\"") s = true →
      jsonParse s = some (Json.str u) → (jsonParse u).isSome = false →
      normalizeArgsStr s = S "\x7b\x7d") := by
  have hq : startsWithS (S "\"") s = true → s ≠ [] ∧ s ≠ S "\x7b\x7d" := by
    intro h
    constructor
    · intro he; rw [he] at h; exact absurd h (by decide)
    · intro he; rw [he] at h; exact absurd h (by decide)
  refine ⟨?_, ?_, ?_, ?_⟩
  · intro h1 h2 h3 h4
    obtain ⟨hne, hbr⟩ := hq h1
    have hpos : s.length > 0 := List.length_pos.mpr hne
    unfold normalizeArgsStr
    rw [if_pos ⟨hpos, hbr⟩, if_pos ⟨h1, h2⟩]
    split
    · rename_i u2 heq
      rw [h3] at heq
      have hu : u = u2 := by
        injection heq with heq2
        injection heq2
      rw [← hu, if_pos h4]
    · rename_i hno
      exact absurd h3 (hno u)
  · intro hnq hsome
    by_cases hne : s = []
    · rw [hne] at hsome
      exact absurd hsome (by decide)
    · by_cases hbr : s = S "\x7b\x7d"
      · rw [hbr]; rfl
      · have hpos : s.length > 0 := List.length_pos.mpr hne
        unfold normalizeArgsStr
        rw [if_pos ⟨hpos, hbr⟩, if_neg hnq, if_pos hsome]
  · intro hnone
    have hn : jsonParse s = none := Option.not_isSome_iff_eq_none.mp (by rw [hnone]; simp)
    by_cases hne : s = []
    · rw [hne]; rfl
    · by_cases hbr : s = S "\x7b\x7d"
      · rw [hbr]; rfl
      · have hpos : s.length > 0 := List.length_pos.mpr hne
        unfold normalizeArgsStr
        rw [if_pos ⟨hpos, hbr⟩]
        by_cases hsq : startsWithS (S "\"") s = true ∧ endsWithS (S "\"") s = true
        · rw [if_pos hsq]
          split
          · rename_i u2 heq
            rw [hn] at heq
            exact absurd heq (by simp)
          · rfl
        · rw [if_neg hsq, if_neg (by rw [hn]; simp)]
  · intro h1 h2 h3 h4
    obtain ⟨hne, hbr⟩ := hq h1
    have hpos : s.length > 0 := List.length_pos.mpr hne
    unfold normalizeArgsStr
    rw [if_pos ⟨hpos, hbr⟩, if_pos ⟨h1, h2⟩]
    split
    · rename_i u2 heq
      rw [h3] at heq
      have hu : u = u2 := by
        injection heq with heq2
        injection heq2
      rw [← hu, if_neg (by rw [h4]; simp)]
    · rename_i hno
      exact absurd h3 (hno u)

/-- Witness for `c5_args_normalization`: the quoted clause at the escaped
document `"\x7b\"x\":1\x7d"` (unescaped once to `\x7b"x":1\x7d`), and the
pass-through clause at the plain document `[1]`. -/
theorem c5_witness :
    normalizeArgsStr (S "\"\x7b\\\"x\\\":1\x7d\"") = S "\x7b\"x\":1\x7d" ∧
    normalizeArgsStr (S "[1]") = S "[1]" :=
  ⟨(c5_args_normalization (S "\"\x7b\\\"x\\\":1\x7d\"") (S "\x7b\"x\":1\x7d")).1
      rfl rfl rfl rfl,
   (c5_args_normalization (S "[1]") []).2.1 (by decide) rfl⟩
